import Mathlib

/-!
Shallow embedding of the extraction-and-enrichment pipeline of the
Dutch-vocabulary repository:
  * `src/services/ai_service.py`          (batched generation, parsing, fallback)
  * `src/services/vocabulary_service.py`  (cache gate, persistence merge, re-read)
  * `src/repositories/word_repository.py`, `definition_repository.py` (store)
  * `src/services/nlp_service.py`         (token filter, aggregation)

Python values returned by `json.loads` are modelled by `Json`; Python
exceptions by `PyError`; the SQLite store by an explicit `DBState` that the
repository operations thread through.  The generative service is an oracle
`List String → BatchResponse` giving, per batch, the outcome of the structured
function-call request and of the plain fallback request.
-/

namespace DutchVocab

/-- A JSON value, as produced by Python `json.loads`. -/
inductive Json where
  | str (s : String)
  | num (n : Int)
  | boolean (b : Bool)
  | null
  | arr (elems : List Json)
  | obj (fields : List (String × Json))

/-- A Python exception, as far as the enrichment path distinguishes them. -/
inductive PyError where
  /-- The `ValueError` raised when the fallback content is not valid JSON. -/
  | valueError (msg : String)
  /-- `TypeError`: iterating a non-iterable, or `**obj` on a non-mapping. -/
  | typeError
  /-- A pydantic validation error from `DefinitionItem(**obj)`. -/
  | validationError
deriving DecidableEq

/-- The pydantic `DefinitionItem` model of `ai_service.py`
(`lemma` and `example` are spelled `lemma_` and `example_` because both are
Lean keywords). -/
structure DefinitionItem where
  lemma_ : String
  definition : String
  example_ : String
  english_translation : String
  category : List String
deriving DecidableEq

/-- Dictionary lookup on parsed-JSON object fields.  Python `json.loads` keeps
the last occurrence of a duplicated key, hence the search from the end. -/
def lookupLast (key : String) : List (String × Json) → Option Json
  | [] => none
  | (k, v) :: rest =>
    match lookupLast key rest with
    | some r => some r
    | none => if k == key then some v else none

/-- A JSON value usable as a pydantic `str` field. -/
def parseStr : Json → Option String
  | Json.str s => some s
  | _ => none

/-- A JSON value usable as a pydantic `List[str]` field. -/
def parseStrList : Json → Option (List String)
  | Json.arr xs => xs.mapM parseStr
  | _ => none

/-- `DefinitionItem(**obj)`: requires `obj` to be a mapping (else `TypeError`)
with all five required fields present and well-typed (else a pydantic
validation error).  Extra fields are ignored, as pydantic does by default. -/
def parseItemE (j : Json) : Except PyError DefinitionItem :=
  match j with
  | Json.obj fields =>
    match parseStr ((lookupLast "lemma" fields).getD Json.null),
          parseStr ((lookupLast "definition" fields).getD Json.null),
          parseStr ((lookupLast "example" fields).getD Json.null),
          parseStr ((lookupLast "english_translation" fields).getD Json.null),
          parseStrList ((lookupLast "category" fields).getD Json.null) with
    | some l, some d, some e, some t, some c => Except.ok ⟨l, d, e, t, c⟩
    | _, _, _, _, _ => Except.error PyError.validationError
  | _ => Except.error PyError.typeError

/-- Python iteration `for obj in items`: lists yield their elements, dicts
their keys, strings their characters; numbers and booleans are not iterable. -/
def pyIter : Json → Option (List Json)
  | Json.arr xs => some xs
  | Json.obj fields => some (fields.map (fun f => Json.str f.1))
  | Json.str s => some (s.toList.map (fun c => Json.str (String.mk [c])))
  | _ => none

/-- The loop `for obj in items: definitions.append(DefinitionItem(**obj))`
of `generate_definitions`; any exception propagates out of the whole call. -/
def parseItems (j : Json) : Except PyError (List DefinitionItem) :=
  match pyIter j with
  | none => Except.error PyError.typeError
  | some objs => objs.mapM parseItemE

/-- The canonical JSON encoding of a definition item, as the service is asked
to produce it. -/
def encodeItem (it : DefinitionItem) : Json :=
  Json.obj [("lemma", Json.str it.lemma_),
            ("definition", Json.str it.definition),
            ("example", Json.str it.example_),
            ("english_translation", Json.str it.english_translation),
            ("category", Json.arr (it.category.map Json.str))]

/-- `AIService._batch`, accumulator form: collect items, emit a batch whenever
the accumulator length reaches `size`, and flush a non-empty remainder.
`size` is an `Int` because the Python `batch_size` may be non-positive, in
which case `len(batch) == size` never holds. -/
def batchAux (size : Int) : List String → List String → List (List String)
  | acc, [] => if acc.isEmpty then [] else [acc]
  | acc, x :: xs =>
    if ((acc.length + 1 : Nat) : Int) = size then
      (acc ++ [x]) :: batchAux size [] xs
    else
      batchAux size (acc ++ [x]) xs

/-- `AIService._batch(iterable, size)` as a list of batches. -/
def batchList (size : Int) (l : List String) : List (List String) :=
  batchAux size [] l

/-- What the generative service did for one batch: the outcome of the
structured function-call request (`error` means any exception inside the
`try` block — network failure, absent `function_call`, or arguments that are
not valid JSON; `ok j` is the parsed arguments), and the parse of the plain
fallback response's text (`none` means `json.JSONDecodeError`). -/
structure BatchResponse where
  structured : Except Unit Json
  fallbackContent : Option Json

/-- One batch of `generate_definitions` up to obtaining `items`, together with
the number of chat-completion requests issued (1 on the structured path, 2
when the fallback request is made).  The structured path is taken only when
the parsed arguments are a JSON object (otherwise `data.get` raises inside
the `try` and the fallback runs); `items` then defaults to `[]` when the
`definitions` key is absent. -/
def itemsViaPaths (resp : BatchResponse) : Except PyError Json × Nat :=
  match resp.structured with
  | Except.ok (Json.obj fields) =>
    (Except.ok ((lookupLast "definitions" fields).getD (Json.arr [])), 1)
  | _ =>
    match resp.fallbackContent with
    | some j => (Except.ok j, 2)
    | none =>
      (Except.error (PyError.valueError "Failed to parse JSON from fallback content"), 2)

/-- Outcome of one batch: obtain `items` via the two paths, then run the
append loop; the call count is unaffected by the loop. -/
def batchOutcome (resp : BatchResponse) : Except PyError (List DefinitionItem) × Nat :=
  match itemsViaPaths resp with
  | (Except.error e, n) => (Except.error e, n)
  | (Except.ok j, n) => (parseItems j, n)

/-- The batch loop of `generate_definitions`: batches are processed in order,
definitions accumulate, and the first exception aborts the whole call
(discarding the accumulator). -/
def runBatches (o : List String → BatchResponse) :
    List (List String) → List DefinitionItem → Nat →
    Except PyError (List DefinitionItem) × Nat
  | [], acc, n => (Except.ok acc, n)
  | b :: bs, acc, n =>
    match batchOutcome (o b) with
    | (Except.error e, c) => (Except.error e, n + c)
    | (Except.ok items, c) => runBatches o bs (acc ++ items) (n + c)

/-- `AIService.generate_definitions(lemmas)` with batch size `size` against
oracle `o`; returns the parsed items (or the propagated exception) and the
total number of chat-completion requests issued. -/
def generate_definitions (o : List String → BatchResponse) (size : Int)
    (lemmas : List String) : Except PyError (List DefinitionItem) × Nat :=
  runBatches o (batchList size lemmas) [] 0

/-- A row of the `word` table (`models/entities.py:Word`); `lemma` is spelled
`lemma_` (Lean keyword). -/
structure Word where
  id : Nat
  lemma_ : String
  language : String
deriving DecidableEq

/-- A row of the `definition` table (`models/entities.py:Definition`).
`created_at` carries no logic in the verified paths and is omitted;
`provider_raw` stores the originating item, as `definition_item.dict()` does. -/
structure DefinitionRow where
  id : Nat
  word_id : Nat
  definition : String
  example_ : String
  english_translation : String
  categories : List String
  provider_raw : DefinitionItem
deriving DecidableEq

/-- The SQLite store: the two tables in rowid order plus the AUTOINCREMENT
counters that supply `lastrowid`. -/
structure DBState where
  words : List Word
  defs : List DefinitionRow
  nextWordId : Nat
  nextDefId : Nat
deriving DecidableEq

/-- `WordRepository.get_by_lemma(lemma)` (language defaults to `"nl"`):
`SELECT * FROM word WHERE lemma = ? AND language = ?` + `fetchone`. -/
def get_by_lemma (s : DBState) (lem : String) : Option Word :=
  s.words.find? (fun w => w.lemma_ == lem && w.language == "nl")

/-- `DefinitionRepository.get_by_word_id(word_id)`:
`SELECT * FROM definition WHERE word_id = ?` + `fetchone`. -/
def get_by_word_id (s : DBState) (wid : Nat) : Option DefinitionRow :=
  s.defs.find? (fun d => d.word_id == wid)

/-- `WordRepository.create(lemma, "nl")`: INSERT and return the entity built
from `lastrowid`. -/
def word_create (s : DBState) (lem : String) : Word × DBState :=
  let w : Word := ⟨s.nextWordId, lem, "nl"⟩
  (w, { s with words := s.words ++ [w], nextWordId := s.nextWordId + 1 })

/-- `DefinitionRepository.create(word_id, ...)` from a definition item. -/
def definition_create (s : DBState) (wid : Nat) (item : DefinitionItem) :
    DefinitionRow × DBState :=
  let d : DefinitionRow :=
    ⟨s.nextDefId, wid, item.definition, item.example_, item.english_translation,
     item.category, item⟩
  (d, { s with defs := s.defs ++ [d], nextDefId := s.nextDefId + 1 })

/-- `DefinitionRepository.update(definition_id, ...)`: UPDATE the content
fields of every row whose `id` matches; `word_id` and `id` are untouched. -/
def definition_update (s : DBState) (defId : Nat) (item : DefinitionItem) : DBState :=
  { s with
    defs := s.defs.map (fun d =>
      if d.id == defId then
        { d with
          definition := item.definition,
          example_ := item.example_,
          english_translation := item.english_translation,
          categories := item.category,
          provider_raw := item }
      else d) }

/-- `VocabularyService._save_word(lemma)`: return the existing word or create
a new one. -/
def save_word (s : DBState) (lem : String) : Word × DBState :=
  match get_by_lemma s lem with
  | some w => (w, s)
  | none => word_create s lem

/-- `VocabularyService._save_definition(word_id, definition_item)`: update in
place when a definition row exists — note that the *pre-update* entity is what
is returned — otherwise create a new row. -/
def save_definition (s : DBState) (wid : Nat) (item : DefinitionItem) :
    DefinitionRow × DBState :=
  match get_by_word_id s wid with
  | some existing => (existing, definition_update s existing.id item)
  | none => definition_create s wid item

/-- The first loop of `process_and_save_definitions`: split the requested
lemmas into definitions already present (`existing_words`) and lemmas still
needing enrichment (`new_lemmas`), both in request order. -/
def partitionLemmas (s : DBState) : List String → List DefinitionRow × List String
  | [] => ([], [])
  | l :: ls =>
    let rest := partitionLemmas s ls
    match get_by_lemma s l with
    | some w =>
      match get_by_word_id s w.id with
      | some d => (d :: rest.1, rest.2)
      | none => (rest.1, l :: rest.2)
    | none => (rest.1, l :: rest.2)

/-- The save loop of `process_and_save_definitions`: for each generated item,
`_save_word` then `_save_definition`, threading the store. -/
def saveItems (s : DBState) : List DefinitionItem → List DefinitionRow × DBState
  | [] => ([], s)
  | it :: its =>
    let ws := save_word s it.lemma_
    let ds := save_definition ws.2 ws.1.id it
    let rest := saveItems ds.2 its
    (ds.1 :: rest.1, rest.2)

/-- The final re-read loop of `process_and_save_definitions`: for each
originally requested lemma, look up the word and then its definition,
appending only when both exist. -/
def rereadDefs (s : DBState) : List String → List DefinitionRow
  | [] => []
  | l :: ls =>
    match get_by_lemma s l with
    | some w =>
      match get_by_word_id s w.id with
      | some d => d :: rereadDefs s ls
      | none => rereadDefs s ls
    | none => rereadDefs s ls

/-- The definition currently persisted for a lemma, read through the two
repository lookups. -/
def defFor (s : DBState) (lem : String) : Option DefinitionRow :=
  (get_by_lemma s lem).bind (fun w => get_by_word_id s w.id)

/-- Whether a lemma already has a word row with a definition row: the
condition under which the cache gate classifies it as existing. -/
def hasDefB (s : DBState) (lem : String) : Bool :=
  match get_by_lemma s lem with
  | some w => (get_by_word_id s w.id).isSome
  | none => false

/-- Outcome of `process_and_save_definitions`: the returned list (or the
propagated exception), the store afterwards, and the number of
chat-completion requests issued. -/
structure ProcessResult where
  result : Except PyError (List DefinitionRow)
  state : DBState
  serviceCalls : Nat

/-- `VocabularyService.process_and_save_definitions(lemmas)` with
`deck_id = None`: cache-gate partition, generation only for the new lemmas,
save loop, then order-restoring re-read of all requested lemmas.  An
exception from `generate_definitions` propagates before anything is saved. -/
def process_and_save_definitions (o : List String → BatchResponse) (size : Int)
    (s : DBState) (lemmas : List String) : ProcessResult :=
  let part := partitionLemmas s lemmas
  if part.2.isEmpty then
    { result := Except.ok (rereadDefs s lemmas), state := s, serviceCalls := 0 }
  else
    match generate_definitions o size part.2 with
    | (Except.error e, n) => { result := Except.error e, state := s, serviceCalls := n }
    | (Except.ok items, n) =>
      let saved := saveItems s items
      { result := Except.ok (rereadDefs saved.2 lemmas), state := saved.2,
        serviceCalls := n }

/-- Store well-formedness used by the cache-gate arguments: word ids are below
the AUTOINCREMENT counter, and every definition row references an existing
word row. -/
def WFb (s : DBState) : Bool :=
  s.words.all (fun w => w.id < s.nextWordId) &&
  s.defs.all (fun d => s.words.any (fun w => w.id == d.word_id))

/-- A spaCy token as `nlp_service.py` reads it: surface text, lemma,
coarse POS tag, stopword flag.  The annotator itself is an external
collaborator, so a document is just a token list. -/
structure Token where
  text : String
  lemma_ : String
  pos_ : String
  is_stop : Bool

/-- Python `str.lower` restricted to the character range the pipeline can
accept: ASCII `A`-`Z` and Latin-1 `À`-`Þ` (minus `×`) map down by 32, `Ÿ`
maps to `ÿ`; every other character is left unchanged (other cased Unicode
letters lower to characters outside the accepted set anyway). -/
def pyLowerChar (c : Char) : Char :=
  let n := c.toNat
  if 65 ≤ n ∧ n ≤ 90 then Char.ofNat (n + 32)
  else if 192 ≤ n ∧ n ≤ 222 ∧ n ≠ 215 then Char.ofNat (n + 32)
  else if n = 376 then Char.ofNat 255
  else c

/-- Python `str.lower` on a whole string. -/
def pyLower (w : String) : String :=
  String.mk (w.data.map pyLowerChar)

/-- Membership in `valid_chars = set('abcdefghijklmnopqrstuvwxyzàáâãäåæç...')`
of `_is_valid_dutch_word`: ASCII `a`-`z` plus `U+00E0`-`U+00FF` without the
division sign `÷` (`U+00F7`). -/
def validChar (c : Char) : Bool :=
  let n := c.toNat
  (97 ≤ n && n ≤ 122) || (224 ≤ n && n ≤ 255 && n != 247)

/-- Python `str.isalpha` on one character, over the Basic Latin and Latin-1
range relevant here (`Ÿ` included); other Unicode letters are not modelled. -/
def pyAlphaChar (c : Char) : Bool :=
  let n := c.toNat
  (65 ≤ n && n ≤ 90) || (97 ≤ n && n ≤ 122) ||
  (192 ≤ n && n ≤ 255 && n != 215 && n != 247) || n == 376

/-- Python `str.isdigit` on one ASCII character. -/
def pyDigitChar (c : Char) : Bool :=
  let n := c.toNat
  48 ≤ n && n ≤ 57

/-- Python `str.isdigit`: non-empty and all digits. -/
def pyIsDigit (w : String) : Bool :=
  !w.data.isEmpty && w.data.all pyDigitChar

/-- Python `str.isalpha`: non-empty and all alphabetic. -/
def pyIsAlpha (w : String) : Bool :=
  !w.data.isEmpty && w.data.all pyAlphaChar

/-- `NLPService._is_valid_dutch_word(word)`: every character of
`word.lower()` is in the accepted set, length at least 2, and the word is
neither all digits nor non-alphabetic. -/
def is_valid_dutch_word (word : String) : Bool :=
  if !(pyLower word).data.all validChar then false
  else if word.length < 2 then false
  else if pyIsDigit word || !pyIsAlpha word then false
  else true

/-- `defaultdict(list)` insertion: append the surface form to the lemma's
bucket, creating the bucket at the end on first occurrence (Python dicts
preserve insertion order of keys). -/
def addToBucket : List (String × List String) → String → String → List (String × List String)
  | [], k, v => [(k, [v])]
  | (k0, vs) :: rest, k, v =>
    if k0 == k then (k0, vs ++ [v]) :: rest
    else (k0, vs) :: addToBucket rest k v

/-- The token loop of `NLPService._extract_unfamiliar_words`: keep a token
when its POS tag is accepted, it is not a stopword, its lowercased lemma is
not known, has length at least 2 and passes the Dutch validity check; then
record its surface form under the lemma. -/
def extractAux (known : List String) :
    List (String × List String) → List Token → List (String × List String)
  | acc, [] => acc
  | acc, t :: ts =>
    if ["NOUN", "VERB", "ADJ", "ADV", "PROPN"].contains t.pos_ then
      if t.is_stop then extractAux known acc ts
      else if known.contains (pyLower t.lemma_) then extractAux known acc ts
      else if (pyLower t.lemma_).length < 2 then extractAux known acc ts
      else if !is_valid_dutch_word (pyLower t.lemma_) then extractAux known acc ts
      else extractAux known (addToBucket acc (pyLower t.lemma_) t.text) ts
    else extractAux known acc ts

/-- `NLPService._extract_unfamiliar_words(doc, known_words)` as an ordered
association list lemma → surface forms. -/
def extract_unfamiliar_words (known : List String) (doc : List Token) :
    List (String × List String) :=
  extractAux known [] doc

/-- The inner loop of `_merge_surface_forms`: drop an element already seen,
otherwise keep it and remember it. -/
def dedupAux (seen : List String) : List String → List String
  | [] => []
  | x :: xs =>
    if seen.contains x then dedupAux seen xs
    else x :: dedupAux (x :: seen) xs

/-- Duplicate removal preserving first-seen order. -/
def dedupFirstSeen (l : List String) : List String :=
  dedupAux [] l

/-- `NLPService._merge_surface_forms(words)`. -/
def merge_surface_forms (words : List (String × List String)) :
    List (String × List String) :=
  words.map (fun p => (p.1, dedupFirstSeen p.2))

/-- One entry of the result list of `process_text` (`lemma` is spelled
`lemma_`, a Lean keyword). -/
structure LemmaGroup where
  lemma_ : String
  surface_forms : List String
  count : Nat
deriving DecidableEq

/-- The Python sort key `(-count, lemma)` as a boolean "precedes or equal"
relation: higher count first, ties by lexicographically smaller lemma. -/
def sortKeyLe (a b : LemmaGroup) : Bool :=
  (b.count < a.count) || (a.count == b.count && a.lemma_ ≤ b.lemma_)

/-- `NLPService._format_results(words)`: build the groups in bucket order
with `count = len(surface_forms)`, then `sorted(..., key=(-count, lemma))`
(Python's stable sort, modelled by the stable `List.mergeSort`). -/
def format_results (words : List (String × List String)) : List LemmaGroup :=
  (words.map (fun p => LemmaGroup.mk p.1 p.2 p.2.length)).mergeSort sortKeyLe

/-- `NLPService.process_text` from the annotated token list on: extract,
merge surface forms, format and sort.  (The empty-text shortcut and the
annotator itself are outside the modelled core.) -/
def process_text (known : List String) (doc : List Token) : List LemmaGroup :=
  format_results (merge_surface_forms (extract_unfamiliar_words known doc))

/-! Concrete fixtures used by witnesses and counterexamples. -/

/-- Fixture: a well-formed definition item for the lemma `huis`. -/
def itA : DefinitionItem :=
  ⟨"huis", "house", "Het huis is groot.", "The house is big.", ["home"]⟩

/-- Fixture: a well-formed definition item for the lemma `a`. -/
def itAa : DefinitionItem := ⟨"a", "adef", "aex", "atr", ["ac"]⟩

/-- Fixture: a definition item whose lemma `z` matches no requested lemma. -/
def itZ : DefinitionItem := ⟨"z", "zdef", "zex", "ztr", ["zc"]⟩

/-- Fixture: an oracle whose structured path always succeeds with `itA`. -/
def oOK : List String → BatchResponse :=
  fun _ => ⟨Except.ok (Json.obj [("definitions", Json.arr [encodeItem itA])]), none⟩

/-- Fixture: an oracle whose structured path always succeeds with `itZ`. -/
def oZ : List String → BatchResponse :=
  fun _ => ⟨Except.ok (Json.obj [("definitions", Json.arr [encodeItem itZ])]), none⟩

/-- Fixture: structured path fails; the fallback text parses to the *wrapped*
shape, a JSON object with a `definitions` key. -/
def oWrap : List String → BatchResponse :=
  fun _ => ⟨Except.error (), some (Json.obj [("definitions", Json.arr [encodeItem itA])])⟩

/-- Fixture: structured path fails; the fallback text parses to a bare JSON
array of definition objects. -/
def oBare : List String → BatchResponse :=
  fun _ => ⟨Except.error (), some (Json.arr [encodeItem itA])⟩

/-- Fixture: the batch `["a"]` succeeds on the structured path; every other
batch fails on both paths. -/
def oPart : List String → BatchResponse :=
  fun b =>
    if b == ["a"] then
      ⟨Except.ok (Json.obj [("definitions", Json.arr [encodeItem itAa])]), none⟩
    else ⟨Except.error (), none⟩

/-- Fixture: the empty store. -/
def s0 : DBState := ⟨[], [], 0, 0⟩

/-- Fixture: the definition row created for `itA` in the empty store. -/
def dA : DefinitionRow :=
  ⟨0, 0, "house", "Het huis is groot.", "The house is big.", ["home"], itA⟩

/-- Fixture: the word row for `huis`. -/
def wHuis : Word := ⟨0, "huis", "nl"⟩

/-- Fixture: an older definition item for `huis`. -/
def itOldF : DefinitionItem := ⟨"huis", "old def", "old ex", "old tr", ["old"]⟩

/-- Fixture: the definition row persisted from `itOldF`. -/
def dOldF : DefinitionRow := ⟨0, 0, "old def", "old ex", "old tr", ["old"], itOldF⟩

/-- Fixture: a store already holding `huis` with its old definition. -/
def sHave : DBState := ⟨[wHuis], [dOldF], 1, 1⟩

/-- Fixture: a fresh definition item for `huis` with different content. -/
def itNewF : DefinitionItem := ⟨"huis", "new def", "new ex", "new tr", ["new"]⟩

/-- Fixture: a three-token annotated document (two inflections of
`handelaar` and a stopword determiner). -/
def tksFix : List Token :=
  [⟨"handelaars", "handelaar", "NOUN", false⟩,
   ⟨"handelaar", "handelaar", "NOUN", false⟩,
   ⟨"de", "de", "DET", true⟩]

/-- Fixture: lemma buckets with a duplicated surface form. -/
def bktsFix : List (String × List String) := [("b", ["B", "B"]), ("a", ["A"])]

/-! Helper lemmas about `_batch`. -/

theorem batchAux_flatten (size : Int) (l : List String) :
    ∀ acc : List String, (batchAux size acc l).flatten = acc ++ l := by
  induction l with
  | nil => intro acc; cases acc <;> simp [batchAux]
  | cons x xs ih =>
    intro acc
    rw [batchAux]
    split
    · simp [ih []]
    · rw [ih (acc ++ [x])]; simp

theorem batchList_flatten (size : Int) (l : List String) :
    (batchList size l).flatten = l := by
  simpa using batchAux_flatten size l []

theorem batchAux_length_le (size : Int) (hs : 0 < size) (l : List String) :
    ∀ acc : List String, (acc.length : Int) < size →
      ∀ b ∈ batchAux size acc l, (b.length : Int) ≤ size := by
  induction l with
  | nil =>
    intro acc hacc b hb
    rw [batchAux] at hb
    split at hb
    · simp at hb
    · simp only [List.mem_singleton] at hb
      subst hb; omega
  | cons x xs ih =>
    intro acc hacc b hb
    rw [batchAux] at hb
    split at hb
    case isTrue hfull =>
      rcases List.mem_cons.mp hb with hb | hb
      · subst hb; simp only [List.length_append, List.length_singleton]
        omega
      · exact ih [] (by simpa using hs) b hb
    case isFalse hfull =>
      refine ih (acc ++ [x]) ?_ b hb
      simp only [List.length_append, List.length_singleton]
      omega

theorem batchAux_dropLast_full (size : Int) (l : List String) :
    ∀ acc : List String, ∀ b ∈ (batchAux size acc l).dropLast,
      (b.length : Int) = size := by
  induction l with
  | nil =>
    intro acc b hb
    rw [batchAux] at hb
    split at hb <;> simp at hb
  | cons x xs ih =>
    intro acc b hb
    rw [batchAux] at hb
    split at hb
    case isTrue hfull =>
      cases hr : batchAux size [] xs with
      | nil => rw [hr] at hb; simp at hb
      | cons r rs =>
        rw [hr, List.dropLast_cons₂] at hb
        rcases List.mem_cons.mp hb with hb | hb
        · subst hb; simp only [List.length_append, List.length_singleton]
          omega
        · rw [← hr] at hb; exact ih [] b hb
    case isFalse hfull =>
      exact ih (acc ++ [x]) b hb

theorem batchAux_nonpos (size : Int) (hs : size ≤ 0) (l : List String) :
    ∀ acc : List String,
      batchAux size acc l = if (acc ++ l).isEmpty then [] else [acc ++ l] := by
  induction l with
  | nil => intro acc; rw [batchAux]; simp
  | cons x xs ih =>
    intro acc
    rw [batchAux, if_neg (by omega), ih (acc ++ [x])]
    simp

/-- C6 counterexample: `generate_definitions` performs no input validation.
On an empty lemma list it returns `Except.ok []` with zero service calls —
no `ValidationError` is raised — and with `batch_size = 0` (non-positive) it
does not reject the input either: the whole list goes out as a single batch,
so a generative-service request *is* issued and the call succeeds. -/
theorem C6_counterexample :
    generate_definitions oOK 20 [] = (Except.ok [], 0) ∧
    generate_definitions oOK 0 ["huis"] = (Except.ok [itA], 1) := by
  exact ⟨rfl, rfl⟩

/-- C6 (amended): `generate_definitions` performs no input validation.  An
empty lemma list yields `Except.ok []` with zero generative-service calls; a
non-positive `batch_size` collects all lemmas into one single batch (which is
then sent to the service); for `batch_size > 0` the batches are consecutive
— their concatenation is the input — each of length at most `batch_size`,
and every batch except possibly the last has length exactly `batch_size`. -/
theorem C6_batching (o : List String → BatchResponse) (size : Int)
    (lemmas : List String) :
    generate_definitions o size [] = (Except.ok [], 0) ∧
    (batchList size lemmas).flatten = lemmas ∧
    (0 < size → ∀ b ∈ batchList size lemmas, (b.length : Int) ≤ size) ∧
    (∀ b ∈ (batchList size lemmas).dropLast, (b.length : Int) = size) ∧
    (size ≤ 0 → lemmas ≠ [] → batchList size lemmas = [lemmas]) := by
  refine ⟨rfl, batchList_flatten size lemmas, ?_, ?_, ?_⟩
  · intro hs b hb
    exact batchAux_length_le size hs lemmas [] (by simpa using hs) b hb
  · intro b hb
    exact batchAux_dropLast_full size lemmas [] b hb
  · intro hs hne
    rw [batchList, batchAux_nonpos size hs lemmas []]
    simp [hne]

/-- C6 witness: at `batch_size = 2` with three lemmas, the hypotheses hold
and the batching bound follows from `C6_batching`. -/
theorem C6_batching_witness :
    (0 : Int) < 2 ∧ (∀ b ∈ batchList 2 ["a", "b", "c"], (b.length : Int) ≤ 2) ∧
    (batchList 2 ["a", "b", "c"]).flatten = ["a", "b", "c"] :=
  ⟨by decide, (C6_batching oOK 2 ["a", "b", "c"]).2.2.1 (by decide),
   (C6_batching oOK 2 ["a", "b", "c"]).2.1⟩

/-- C3 counterexample: two batches (batch size 1), the first parses, the
second fails on both paths.  The whole `process_and_save_definitions` call
returns the error: the first batch's already-parsed definition is *not*
retained, persisted (the store is unchanged) or returned, contradicting the
claimed partial-success semantics. -/
theorem C3_counterexample :
    process_and_save_definitions oPart 1 s0 ["a", "b"] =
      ⟨Except.error (PyError.valueError "Failed to parse JSON from fallback content"),
       s0, 3⟩ := by
  rfl

/-- C3 (amended): a parse failure in any batch propagates out of
`generate_definitions` and aborts the entire `process_and_save_definitions`
call: no definitions — including those of previously parsed batches — are
persisted or returned, and the store is left unchanged. -/
theorem C3_failure_aborts_call (o : List String → BatchResponse) (size : Int)
    (s : DBState) (lemmas : List String) (e : PyError) (n : Nat)
    (hne : (partitionLemmas s lemmas).2.isEmpty = false)
    (hgen : generate_definitions o size (partitionLemmas s lemmas).2 =
      (Except.error e, n)) :
    process_and_save_definitions o size s lemmas =
      ⟨Except.error e, s, n⟩ := by
  simp only [process_and_save_definitions, hne, Bool.false_eq_true, if_false, hgen]

/-- C3 witness: the amended theorem applied to the concrete two-batch
scenario of the counterexample. -/
theorem C3_failure_aborts_call_witness :
    (partitionLemmas s0 ["a", "b"]).2.isEmpty = false ∧
    process_and_save_definitions oPart 1 s0 ["a", "b"] =
      ⟨Except.error (PyError.valueError "Failed to parse JSON from fallback content"),
       s0, 3⟩ :=
  ⟨by decide, C3_failure_aborts_call oPart 1 s0 ["a", "b"] _ 3 (by decide) (by rfl)⟩

/-- C4 counterexample: the batch requests only the lemma `a`, the service
responds with an item for the unrelated lemma `z`, and `generate_definitions`
returns that item — it is *not* discarded — while the requested lemma `a` is
silently absent from the result with no missing-report of any kind. -/
theorem C4_counterexample :
    generate_definitions oZ 20 ["a"] = (Except.ok [itZ], 1) ∧ itZ.lemma_ ≠ "a" := by
  exact ⟨rfl, by decide⟩

/-- C4 (amended): `generate_definitions` performs no lemma matching at all:
whenever a single-batch structured response parses, every parsed item is
returned verbatim — regardless of whether its lemma occurs among the
requested lemmas — and requested lemmas absent from the response are simply
missing from the result, with no report. -/
theorem C4_no_lemma_filtering (o : List String → BatchResponse) (size : Int)
    (lemmas : List String) (js : List Json) (items : List DefinitionItem)
    (hb : batchList size lemmas = [lemmas])
    (hs : (o lemmas).structured =
      Except.ok (Json.obj [("definitions", Json.arr js)]))
    (hp : js.mapM parseItemE = Except.ok items) :
    generate_definitions o size lemmas = (Except.ok items, 1) := by
  unfold generate_definitions
  rw [hb]
  have hout : batchOutcome (o lemmas) = (Except.ok items, 1) := by
    unfold batchOutcome itemsViaPaths
    rw [hs]
    simp only [lookupLast, parseItems, pyIter, beq_self_eq_true, if_true, Option.getD_some]
    exact congrArg (fun r => (r, 1)) hp
  rw [runBatches, hout]
  simp [runBatches]

/-- C4 witness: the amended theorem at the concrete hallucinated-lemma
response of the counterexample. -/
theorem C4_no_lemma_filtering_witness :
    batchList 20 ["a"] = [["a"]] ∧
    generate_definitions oZ 20 ["a"] = (Except.ok [itZ], 1) :=
  ⟨by decide,
   C4_no_lemma_filtering oZ 20 ["a"] [encodeItem itZ] [itZ] (by decide) (by rfl) (by rfl)⟩

/-- C7 counterexample: the structured path fails and the fallback text parses
as exactly the `definitions`-wrapped object schema holding one valid item;
the code then iterates the dict's keys and calls `DefinitionItem(**"definitions")`,
raising a `TypeError` — the batch does *not* succeed and an error is
surfaced, contradicting the claim for the wrapped shape. -/
theorem C7_counterexample :
    generate_definitions oWrap 20 ["huis"] = (Except.error PyError.typeError, 2) := by
  rfl

/-- C7 (amended): the fallback path succeeds only when the fallback text
parses as a *bare JSON array* of definition objects (not the wrapped
`definitions` object): in that case the batch's items are returned with no
error, at the cost of two service calls for the batch. -/
theorem C7_fallback_bare_array (o : List String → BatchResponse) (size : Int)
    (lemmas : List String) (js : List Json) (items : List DefinitionItem)
    (hb : batchList size lemmas = [lemmas])
    (hs : (o lemmas).structured = Except.error ())
    (hf : (o lemmas).fallbackContent = some (Json.arr js))
    (hp : js.mapM parseItemE = Except.ok items) :
    generate_definitions o size lemmas = (Except.ok items, 2) := by
  unfold generate_definitions
  rw [hb]
  have hout : batchOutcome (o lemmas) = (Except.ok items, 2) := by
    unfold batchOutcome itemsViaPaths
    rw [hs, hf]
    simp only [parseItems, pyIter]
    exact congrArg (fun r => (r, 2)) hp
  rw [runBatches, hout]
  simp [runBatches]

/-- C7 witness: the amended theorem at the concrete bare-array fallback. -/
theorem C7_fallback_bare_array_witness :
    batchList 20 ["huis"] = [["huis"]] ∧
    generate_definitions oBare 20 ["huis"] = (Except.ok [itA], 2) :=
  ⟨by decide,
   C7_fallback_bare_array oBare 20 ["huis"] [encodeItem itA] [itA]
     (by decide) (by rfl) (by rfl) (by rfl)⟩

/-! Helper lemmas about the re-read loop and the returned order. -/

theorem rereadDefs_eq_filterMap (s : DBState) :
    ∀ lemmas : List String, rereadDefs s lemmas = lemmas.filterMap (defFor s) := by
  intro lemmas
  induction lemmas with
  | nil => rfl
  | cons l ls ih =>
    rw [rereadDefs, List.filterMap_cons]
    cases hw : get_by_lemma s l with
    | none => simp [defFor, hw, ih]
    | some w =>
      cases hd : get_by_word_id s w.id with
      | none => simp [defFor, hw, hd, ih]
      | some d => simp [defFor, hw, hd, ih]

theorem process_ok_eq_filterMap (o : List String → BatchResponse) (size : Int)
    (s : DBState) (lemmas : List String) (ds : List DefinitionRow)
    (h : (process_and_save_definitions o size s lemmas).result = Except.ok ds) :
    ds = lemmas.filterMap
      (defFor (process_and_save_definitions o size s lemmas).state) := by
  simp only [process_and_save_definitions] at h ⊢
  by_cases hemp : (partitionLemmas s lemmas).2.isEmpty = true
  · rw [if_pos hemp] at h ⊢
    have h2 : rereadDefs s lemmas = ds := by simpa using h
    rw [← h2]
    exact rereadDefs_eq_filterMap s lemmas
  · rw [if_neg hemp] at h ⊢
    obtain ⟨r, n, hg⟩ :
        ∃ r n, generate_definitions o size (partitionLemmas s lemmas).2 = (r, n) :=
      ⟨_, _, rfl⟩
    rw [hg] at h ⊢
    cases r with
    | error e => simp at h
    | ok items =>
      have h2 : rereadDefs (saveItems s items).2 lemmas = ds := by simpa using h
      rw [← h2]
      exact rereadDefs_eq_filterMap _ lemmas

/-- C2: whenever `process_and_save_definitions` succeeds, the returned list
equals the input lemma list mapped, in input order, through the store reads
`get_by_lemma` / `get_by_word_id` on the final store — i.e. the i-th returned
Definition is the persisted definition of the i-th requested lemma that has
one, independently of cache/fresh classification and of batch arrival
order (the statement holds for every oracle `o`). -/
theorem C2_order_preservation (o : List String → BatchResponse) (size : Int)
    (s : DBState) (lemmas : List String) (ds : List DefinitionRow)
    (h : (process_and_save_definitions o size s lemmas).result = Except.ok ds) :
    ds = lemmas.filterMap
      (defFor (process_and_save_definitions o size s lemmas).state) :=
  process_ok_eq_filterMap o size s lemmas ds h

/-- C2 witness: the theorem at the concrete one-lemma run from the empty
store. -/
theorem C2_order_preservation_witness :
    (process_and_save_definitions oOK 20 s0 ["huis"]).result = Except.ok [dA] ∧
    [dA] = ["huis"].filterMap
      (defFor (process_and_save_definitions oOK 20 s0 ["huis"]).state) :=
  ⟨by rfl, C2_order_preservation oOK 20 s0 ["huis"] [dA] (by rfl)⟩

/-! Helper lemmas for counting duplicates in the returned list. -/

theorem count_filterMap_eq {α β : Type} [DecidableEq β] (f : α → Option β)
    (l : List α) (b : β) :
    (l.filterMap f).count b = l.countP (fun a => f a == some b) := by
  induction l with
  | nil => rfl
  | cons a l ih =>
    rw [List.filterMap_cons, List.countP_cons]
    cases hf : f a with
    | none => simp [hf, ih]
    | some c =>
      rw [List.count_cons, ih]
      by_cases hcb : c = b
      · subst hcb; simp
      · simp [hcb]

/-- C10: duplicate requests are not deduplicated by the final re-read: when
the call succeeds and the final store holds definition `d` for lemma `L`, the
number of copies of `d` in the returned list is exactly the number of input
positions whose persisted definition is `d` — in particular at least one copy
per occurrence of `L` in the input. -/
theorem C10_duplicates_counted (o : List String → BatchResponse) (size : Int)
    (s : DBState) (lemmas : List String) (ds : List DefinitionRow)
    (L : String) (d : DefinitionRow)
    (h : (process_and_save_definitions o size s lemmas).result = Except.ok ds)
    (hd : defFor (process_and_save_definitions o size s lemmas).state L = some d) :
    ds.count d = lemmas.countP
      (fun l => defFor (process_and_save_definitions o size s lemmas).state l == some d) ∧
    lemmas.count L ≤ ds.count d := by
  have hds := process_ok_eq_filterMap o size s lemmas ds h
  subst hds
  constructor
  · exact count_filterMap_eq _ lemmas d
  · rw [count_filterMap_eq _ lemmas d, List.count]
    refine List.countP_mono_left ?_
    intro l hl hbeq
    have : l = L := by simpa using hbeq
    subst this
    simp [hd]

/-- C10 witness: requesting `huis` twice from the empty store returns its
single persisted definition twice. -/
theorem C10_duplicates_counted_witness :
    (process_and_save_definitions oOK 20 s0 ["huis", "huis"]).result =
      Except.ok [dA, dA] ∧
    ["huis", "huis"].count "huis" ≤ List.count dA [dA, dA] :=
  ⟨by rfl,
   (C10_duplicates_counted oOK 20 s0 ["huis", "huis"] [dA, dA] "huis" dA
     (by rfl) (by rfl)).2⟩

/-! Helper lemma: `find?` commutes with a map that preserves the predicate. -/

theorem find?_map_eq {α : Type} (f : α → α) (p : α → Bool)
    (hp : ∀ a, p (f a) = p a) (l : List α) :
    (l.map f).find? p = (l.find? p).map f := by
  induction l with
  | nil => rfl
  | cons a l ih =>
    rw [List.map_cons, List.find?_cons, List.find?_cons, hp a]
    cases hpa : p a with
    | false => simpa using ih
    | true => simp

/-- C5 counterexample: the store already holds an old definition for `huis`;
`_save_definition` is called with new content, issues the UPDATE, and then
returns the *pre-update* entity: the returned Definition's content field is
the old value, not the newly supplied item's — contradicting the claim that
the returned value's content fields equal the new item's fields. -/
theorem C5_counterexample :
    (save_definition sHave 0 itNewF).1.definition = "old def" ∧
    itNewF.definition = "new def" ∧
    (save_definition sHave 0 itNewF).1.definition ≠ itNewF.definition := by
  exact ⟨rfl, rfl, by decide⟩

/-- C5 (amended): when a Definition row already exists for the word,
`_save_definition` updates it in place — no second row is created, the word
and def-row counts are unchanged, and a subsequent `get_by_word_id` read
returns the row with the newly supplied content — but the Definition value
*returned* by `_save_definition` is the stale pre-update entity, whose
content fields are the old values (only its `id`/`word_id` identify the
updated row). -/
theorem C5_update_in_place (s : DBState) (wid : Nat) (item : DefinitionItem)
    (dOld : DefinitionRow) (h : get_by_word_id s wid = some dOld) :
    (save_definition s wid item).1 = dOld ∧
    (save_definition s wid item).2.defs.length = s.defs.length ∧
    (save_definition s wid item).2.words = s.words ∧
    get_by_word_id (save_definition s wid item).2 wid =
      some { dOld with
             definition := item.definition,
             example_ := item.example_,
             english_translation := item.english_translation,
             categories := item.category,
             provider_raw := item } := by
  unfold save_definition
  rw [h]
  refine ⟨rfl, by simp [definition_update], rfl, ?_⟩
  unfold get_by_word_id definition_update
  rw [find?_map_eq _ _ (fun d => by split <;> rfl) s.defs]
  have h2 : s.defs.find? (fun d => d.word_id == wid) = some dOld := h
  rw [h2]
  simp

/-- C5 witness: the amended theorem at the concrete old/new store. -/
theorem C5_update_in_place_witness :
    get_by_word_id sHave 0 = some dOldF ∧
    get_by_word_id (save_definition sHave 0 itNewF).2 0 =
      some { dOldF with
             definition := itNewF.definition,
             example_ := itNewF.example_,
             english_translation := itNewF.english_translation,
             categories := itNewF.category,
             provider_raw := itNewF } :=
  ⟨by rfl, (C5_update_in_place sHave 0 itNewF dOldF (by rfl)).2.2.2⟩

/-! Helper lemmas for the cache gate (claim C1). -/

theorem partition_single_not_cached (s : DBState) (L : String)
    (hnd : hasDefB s L = false) :
    partitionLemmas s [L] = ([], [L]) := by
  unfold hasDefB at hnd
  cases hw : get_by_lemma s L with
  | none => simp [partitionLemmas, hw]
  | some w =>
    simp only [hw] at hnd
    cases hd : get_by_word_id s w.id with
    | some d => rw [hd] at hnd; simp at hnd
    | none => simp [partitionLemmas, hw, hd]

theorem partition_single_cached (s : DBState) (L : String) (d : DefinitionRow)
    (hfd : defFor s L = some d) :
    partitionLemmas s [L] = ([d], []) := by
  unfold defFor at hfd
  cases hw : get_by_lemma s L with
  | none => rw [hw] at hfd; simp at hfd
  | some w =>
    rw [hw] at hfd
    simp only [Option.some_bind] at hfd
    simp [partitionLemmas, hw, hfd]

theorem saveItems_single (s : DBState) (item : DefinitionItem)
    (hwf : WFb s = true) (hnd : hasDefB s item.lemma_ = false) :
    ∃ (d : DefinitionRow) (s2 : DBState),
      saveItems s [item] = ([d], s2) ∧ defFor s2 item.lemma_ = some d := by
  unfold WFb at hwf
  rw [Bool.and_eq_true, List.all_eq_true, List.all_eq_true] at hwf
  obtain ⟨hw1, hw2⟩ := hwf
  unfold hasDefB at hnd
  cases hwl : get_by_lemma s item.lemma_ with
  | some w =>
    simp only [hwl] at hnd
    have hdn : get_by_word_id s w.id = none := by
      cases hdd : get_by_word_id s w.id with
      | none => rfl
      | some d0 => rw [hdd] at hnd; simp at hnd
    refine ⟨⟨s.nextDefId, w.id, item.definition, item.example_,
             item.english_translation, item.category, item⟩,
            { s with
              defs := s.defs ++ [⟨s.nextDefId, w.id, item.definition, item.example_,
                item.english_translation, item.category, item⟩],
              nextDefId := s.nextDefId + 1 }, ?_, ?_⟩
    · simp [saveItems, save_word, hwl, save_definition, hdn, definition_create]
    · unfold defFor
      have hgl : get_by_lemma
          { s with
            defs := s.defs ++ [⟨s.nextDefId, w.id, item.definition, item.example_,
              item.english_translation, item.category, item⟩],
            nextDefId := s.nextDefId + 1 } item.lemma_ = some w := hwl
      rw [hgl, Option.some_bind]
      unfold get_by_word_id at hdn ⊢
      simp only [List.find?_append, hdn, Option.none_or]
      simp
  | none =>
    have hdn : s.defs.find? (fun d0 => d0.word_id == s.nextWordId) = none := by
      rw [List.find?_eq_none]
      intro d0 hd0 hbeq
      have hb := hw2 d0 hd0
      rw [List.any_eq_true] at hb
      obtain ⟨w0, hw0m, hw0eq⟩ := hb
      have h1 := hw1 w0 hw0m
      simp only [decide_eq_true_eq] at h1
      rw [beq_iff_eq] at hw0eq hbeq
      omega
    refine ⟨⟨s.nextDefId, s.nextWordId, item.definition, item.example_,
             item.english_translation, item.category, item⟩,
            { s with
              words := s.words ++ [⟨s.nextWordId, item.lemma_, "nl"⟩],
              defs := s.defs ++ [⟨s.nextDefId, s.nextWordId, item.definition, item.example_,
                item.english_translation, item.category, item⟩],
              nextWordId := s.nextWordId + 1,
              nextDefId := s.nextDefId + 1 }, ?_, ?_⟩
    · simp [saveItems, save_word, hwl, word_create, save_definition,
            get_by_word_id, hdn, definition_create]
    · unfold defFor
      have hgl : get_by_lemma
          { s with
            words := s.words ++ [⟨s.nextWordId, item.lemma_, "nl"⟩],
            defs := s.defs ++ [⟨s.nextDefId, s.nextWordId, item.definition, item.example_,
              item.english_translation, item.category, item⟩],
            nextWordId := s.nextWordId + 1,
            nextDefId := s.nextDefId + 1 } item.lemma_ =
          some ⟨s.nextWordId, item.lemma_, "nl"⟩ := by
        unfold get_by_lemma at hwl ⊢
        simp only [List.find?_append, hwl, Option.none_or]
        simp
      rw [hgl, Option.some_bind]
      unfold get_by_word_id
      simp only [List.find?_append, hdn, Option.none_or]
      simp

/-- C1: idempotent enrichment.  From a well-formed store in which the lemma
`L` has no cached definition, a first `process_and_save_definitions([L])`
whose generation succeeds with exactly one service call persists a definition
row `d` and returns `[d]`; a second call on the resulting store issues zero
generative-service calls (the cache gate classifies `L` as existing, so no
generation runs), returns the identical `[d]`, and leaves the store
unchanged — so exactly one service call is made across the two calls. -/
theorem C1_enrich_idempotent (o : List String → BatchResponse) (size : Int)
    (s : DBState) (L : String) (item : DefinitionItem)
    (hwf : WFb s = true) (hnd : hasDefB s L = false)
    (hgen : generate_definitions o size [L] = (Except.ok [item], 1))
    (hlem : item.lemma_ = L) :
    ∃ (d : DefinitionRow) (s2 : DBState),
      process_and_save_definitions o size s [L] = ⟨Except.ok [d], s2, 1⟩ ∧
      process_and_save_definitions o size s2 [L] = ⟨Except.ok [d], s2, 0⟩ := by
  subst hlem
  obtain ⟨d, s2, hsave, hdef⟩ := saveItems_single s item hwf hnd
  have hpart := partition_single_not_cached s item.lemma_ hnd
  have hpart2 := partition_single_cached s2 item.lemma_ d hdef
  refine ⟨d, s2, ?_, ?_⟩
  · simp [process_and_save_definitions, hpart, hgen, hsave,
          rereadDefs_eq_filterMap, hdef]
  · simp [process_and_save_definitions, hpart2, rereadDefs_eq_filterMap, hdef]

/-- C1 witness: the theorem at the empty store with the always-succeeding
structured oracle for `huis`. -/
theorem C1_enrich_idempotent_witness :
    WFb s0 = true ∧ hasDefB s0 "huis" = false ∧
    generate_definitions oOK 20 ["huis"] = (Except.ok [itA], 1) ∧
    (∃ (d : DefinitionRow) (s2 : DBState),
      process_and_save_definitions oOK 20 s0 ["huis"] = ⟨Except.ok [d], s2, 1⟩ ∧
      process_and_save_definitions oOK 20 s2 ["huis"] = ⟨Except.ok [d], s2, 0⟩) :=
  ⟨by decide, by decide, by rfl,
   C1_enrich_idempotent oOK 20 s0 "huis" itA (by decide) (by decide) (by rfl) (by rfl)⟩

/-! Helper lemmas about duplicate removal and the sort relation (claim C8). -/

theorem dedupAux_sublist (l : List String) :
    ∀ seen : List String, (dedupAux seen l).Sublist l := by
  induction l with
  | nil => intro seen; simp [dedupAux]
  | cons x xs ih =>
    intro seen
    rw [dedupAux]
    split
    · exact (ih seen).cons x
    · exact (ih (x :: seen)).cons₂ x

theorem mem_dedupAux (l : List String) :
    ∀ seen x, x ∈ dedupAux seen l → x ∈ l ∧ seen.contains x = false := by
  induction l with
  | nil => intro seen x hx; simp [dedupAux] at hx
  | cons y ys ih =>
    intro seen x hx
    rw [dedupAux] at hx
    split at hx
    · obtain ⟨h1, h2⟩ := ih seen x hx
      exact ⟨List.mem_cons_of_mem y h1, h2⟩
    · rcases List.mem_cons.mp hx with rfl | hx2
      · refine ⟨List.mem_cons_self x ys, ?_⟩
        rename_i hc
        simpa using hc
      · obtain ⟨h1, h2⟩ := ih (y :: seen) x hx2
        refine ⟨List.mem_cons_of_mem y h1, ?_⟩
        simp only [List.contains_cons, Bool.or_eq_false_iff] at h2
        exact h2.2

theorem mem_dedupAux_of_mem (l : List String) :
    ∀ seen x, x ∈ l → seen.contains x = false → x ∈ dedupAux seen l := by
  induction l with
  | nil => intro seen x hx; simp at hx
  | cons y ys ih =>
    intro seen x hx hs
    rw [dedupAux]
    split
    · rcases List.mem_cons.mp hx with rfl | hx2
      · rename_i hc
        rw [hs] at hc
        cases hc
      · exact ih seen x hx2 hs
    · rcases List.mem_cons.mp hx with rfl | hx2
      · exact List.mem_cons_self x _
      · by_cases hxy : x = y
        · subst hxy; exact List.mem_cons_self x _
        · refine List.mem_cons_of_mem y (ih (y :: seen) x hx2 ?_)
          rw [List.contains_cons, Bool.or_eq_false_iff]
          exact ⟨beq_eq_false_iff_ne.mpr hxy, hs⟩

theorem dedupAux_nodup (l : List String) :
    ∀ seen : List String, (dedupAux seen l).Nodup := by
  induction l with
  | nil => intro seen; simp [dedupAux]
  | cons y ys ih =>
    intro seen
    rw [dedupAux]
    split
    · exact ih seen
    · rw [List.nodup_cons]
      refine ⟨?_, ih (y :: seen)⟩
      intro hmem
      have h2 := (mem_dedupAux ys (y :: seen) y hmem).2
      simp at h2

theorem sortKeyLe_total (a b : LemmaGroup) : sortKeyLe a b || sortKeyLe b a := by
  simp only [sortKeyLe, Bool.or_eq_true, Bool.and_eq_true, decide_eq_true_eq,
             beq_iff_eq]
  rcases Nat.lt_trichotomy b.count a.count with h | h | h
  · exact Or.inl (Or.inl h)
  · rcases le_total a.lemma_ b.lemma_ with hl | hl
    · exact Or.inl (Or.inr ⟨h.symm, hl⟩)
    · exact Or.inr (Or.inr ⟨h, hl⟩)
  · exact Or.inr (Or.inl h)

theorem sortKeyLe_trans (a b c : LemmaGroup) (h1 : sortKeyLe a b)
    (h2 : sortKeyLe b c) : sortKeyLe a c := by
  simp only [sortKeyLe, Bool.or_eq_true, Bool.and_eq_true, decide_eq_true_eq,
             beq_iff_eq] at h1 h2 ⊢
  rcases h1 with h1 | ⟨h1e, h1l⟩
  · rcases h2 with h2 | ⟨h2e, h2l⟩
    · exact Or.inl (by omega)
    · exact Or.inl (by omega)
  · rcases h2 with h2 | ⟨h2e, h2l⟩
    · exact Or.inl (by omega)
    · exact Or.inr ⟨by omega, le_trans h1l h2l⟩

/-- C8: aggregation.  For any bucket map with distinct lemma keys (as a
Python dict guarantees), `_merge_surface_forms` followed by
`_format_results` yields groups whose surface forms are the first-seen-order
deduplication of the bucket (no duplicates, a sublist of the bucket
preserving order, same member set) with `count` equal to the number of
deduplicated forms, and the output sequence is sorted by `(-count, lemma)` —
descending count, ties by ascending lemma — with no lemma occurring twice. -/
theorem C8_aggregation (words : List (String × List String))
    (hnd : (words.map Prod.fst).Nodup) :
    (∀ g ∈ format_results (merge_surface_forms words),
      ∃ forms, (g.lemma_, forms) ∈ words ∧
        g.surface_forms = dedupFirstSeen forms ∧
        g.surface_forms.Nodup ∧
        g.surface_forms.Sublist forms ∧
        (∀ x, x ∈ g.surface_forms ↔ x ∈ forms) ∧
        g.count = g.surface_forms.length) ∧
    (format_results (merge_surface_forms words)).Pairwise
      (fun a b => sortKeyLe a b = true) ∧
    ((format_results (merge_surface_forms words)).map LemmaGroup.lemma_).Nodup := by
  refine ⟨?_, ?_, ?_⟩
  · intro g hg
    have hg2 := List.mem_mergeSort.mp hg
    obtain ⟨p, hp, hpe⟩ := List.mem_map.mp hg2
    obtain ⟨q, hq, hqe⟩ := List.mem_map.mp hp
    subst hpe
    subst hqe
    refine ⟨q.2, by simpa using hq, rfl, dedupAux_nodup q.2 [], dedupAux_sublist q.2 [], ?_, rfl⟩
    intro x
    constructor
    · intro hx
      exact (mem_dedupAux q.2 [] x hx).1
    · intro hx
      exact mem_dedupAux_of_mem q.2 [] x hx rfl
  · exact List.sorted_mergeSort
      (fun a b c => sortKeyLe_trans a b c)
      (fun a b => sortKeyLe_total a b) _
  · have hperm : List.Perm (format_results (merge_surface_forms words))
        ((merge_surface_forms words).map
          (fun p => LemmaGroup.mk p.1 p.2 p.2.length)) :=
      List.mergeSort_perm _ sortKeyLe
    have hmap : List.Perm
        ((format_results (merge_surface_forms words)).map LemmaGroup.lemma_)
        (((merge_surface_forms words).map
          (fun p => LemmaGroup.mk p.1 p.2 p.2.length)).map LemmaGroup.lemma_) :=
      hperm.map LemmaGroup.lemma_
    refine hmap.nodup_iff.mpr ?_
    simpa [merge_surface_forms, List.map_map, Function.comp] using hnd

/-- C8 witness: the theorem at a concrete bucket map with a duplicate
surface form. -/
theorem C8_aggregation_witness :
    (bktsFix.map Prod.fst).Nodup ∧
    (format_results (merge_surface_forms bktsFix)).Pairwise
      (fun a b => sortKeyLe a b = true) :=
  ⟨by decide, (C8_aggregation bktsFix (by decide)).2.1⟩

/-! Helper lemmas for the token-filter invariant (claim C9). -/

theorem char_toNat_ofNat (n : Nat) (h : n < 55296) : (Char.ofNat n).toNat = n := by
  unfold Char.ofNat
  rw [dif_pos (Or.inl h)]
  simp [Char.ofNatAux, Char.toNat, UInt32.toNat, BitVec.toNat_ofNatLt]

theorem pyLowerChar_idem (c : Char) : pyLowerChar (pyLowerChar c) = pyLowerChar c := by
  by_cases h1 : 65 ≤ c.toNat ∧ c.toNat ≤ 90
  · have e1 : pyLowerChar c = Char.ofNat (c.toNat + 32) := by
      rw [pyLowerChar, if_pos h1]
    rw [e1, pyLowerChar, char_toNat_ofNat (c.toNat + 32) (by omega),
        if_neg (by omega), if_neg (by omega), if_neg (by omega)]
  · by_cases h2 : 192 ≤ c.toNat ∧ c.toNat ≤ 222 ∧ c.toNat ≠ 215
    · have e1 : pyLowerChar c = Char.ofNat (c.toNat + 32) := by
        rw [pyLowerChar, if_neg h1, if_pos h2]
      rw [e1, pyLowerChar, char_toNat_ofNat (c.toNat + 32) (by omega),
          if_neg (by omega), if_neg (by omega), if_neg (by omega)]
    · by_cases h3 : c.toNat = 376
      · have e1 : pyLowerChar c = Char.ofNat 255 := by
          rw [pyLowerChar, if_neg h1, if_neg h2, if_pos h3]
        rw [e1, pyLowerChar, char_toNat_ofNat 255 (by omega),
            if_neg (by omega), if_neg (by omega), if_neg (by omega)]
      · have e1 : pyLowerChar c = c := by
          rw [pyLowerChar, if_neg h1, if_neg h2, if_neg h3]
        rw [e1, e1]

theorem pyLower_idem (w : String) : pyLower (pyLower w) = pyLower w := by
  unfold pyLower
  rw [List.map_map]
  exact congrArg String.mk (List.map_congr_left (fun c _ => pyLowerChar_idem c))

theorem addToBucket_keys {P : String → Prop} (k v : String) (hk : P k) :
    ∀ acc : List (String × List String), (∀ q ∈ acc, P q.1) →
      ∀ q ∈ addToBucket acc k v, P q.1 := by
  intro acc
  induction acc with
  | nil =>
    intro _ q hq
    simp only [addToBucket, List.mem_singleton] at hq
    subst hq; exact hk
  | cons p rest ih =>
    intro hacc q hq
    rw [addToBucket] at hq
    split at hq
    · rcases List.mem_cons.mp hq with rfl | hq2
      · exact hacc p (List.mem_cons_self p rest)
      · exact hacc q (List.mem_cons_of_mem p hq2)
    · rcases List.mem_cons.mp hq with rfl | hq2
      · exact hacc p (List.mem_cons_self p rest)
      · exact ih (fun r hr => hacc r (List.mem_cons_of_mem p hr)) q hq2

theorem valid_word_chars (w : String) (h : is_valid_dutch_word w = true) :
    (pyLower w).data.all validChar = true := by
  unfold is_valid_dutch_word at h
  by_cases hc : (pyLower w).data.all validChar = true
  · exact hc
  · rw [if_pos (by simp [hc])] at h
    cases h

theorem extractAux_keys (known : List String) (doc : List Token) :
    ∀ acc : List (String × List String),
      (∀ q ∈ acc, q.1 = pyLower q.1 ∧ 2 ≤ q.1.length ∧
        q.1.data.all validChar = true ∧ known.contains q.1 = false) →
      ∀ q ∈ extractAux known acc doc,
        q.1 = pyLower q.1 ∧ 2 ≤ q.1.length ∧
        q.1.data.all validChar = true ∧ known.contains q.1 = false := by
  induction doc with
  | nil => intro acc hacc q hq; exact hacc q hq
  | cons t ts ih =>
    intro acc hacc q hq
    rw [extractAux] at hq
    split at hq
    · split at hq
      · exact ih acc hacc q hq
      · split at hq
        · exact ih acc hacc q hq
        · split at hq
          · exact ih acc hacc q hq
          · split at hq
            · exact ih acc hacc q hq
            · refine ih _
                (@addToBucket_keys
                  (fun k => k = pyLower k ∧ 2 ≤ k.length ∧
                    k.data.all validChar = true ∧ known.contains k = false)
                  (pyLower t.lemma_) t.text ?_ acc hacc) q hq
              rename_i hstop hknown hlen hvalid
              refine ⟨(pyLower_idem t.lemma_).symm, by omega, ?_, ?_⟩
              · have hv : is_valid_dutch_word (pyLower t.lemma_) = true := by
                  simpa using hvalid
                have := valid_word_chars (pyLower t.lemma_) hv
                rwa [pyLower_idem] at this
              · simpa using hknown
    · exact ih acc hacc q hq

/-- C9: every group returned by `process_text` has a lemma that is
lower-cased (a fixpoint of Python `str.lower`), has length at least 2,
consists only of characters of the accepted alphabetic set (ASCII letters
plus the Latin-1 diacritics; digits and symbols excluded), and is not a
member of the caller-supplied known-words set. -/
theorem C9_lemma_invariant (doc : List Token) (known : List String)
    (g : LemmaGroup) (hg : g ∈ process_text known doc) :
    g.lemma_ = pyLower g.lemma_ ∧ 2 ≤ g.lemma_.length ∧
    g.lemma_.data.all validChar = true ∧ known.contains g.lemma_ = false := by
  unfold process_text format_results at hg
  have hg2 := List.mem_mergeSort.mp hg
  obtain ⟨p, hp, hpe⟩ := List.mem_map.mp hg2
  obtain ⟨q, hq, hqe⟩ := List.mem_map.mp hp
  have hkey := extractAux_keys known doc [] (by simp) q hq
  subst hpe
  subst hqe
  exact hkey

/-- C9 witness: the theorem at the concrete three-token document, checking
the surviving group `handelaar`. -/
theorem C9_lemma_invariant_witness :
    (⟨"handelaar", ["handelaars", "handelaar"], 2⟩ : LemmaGroup) ∈
      process_text ["markt"] tksFix ∧
    2 ≤ ("handelaar" : String).length ∧
    (["markt"] : List String).contains "handelaar" = false := by
  have hg : (⟨"handelaar", ["handelaars", "handelaar"], 2⟩ : LemmaGroup) ∈
      process_text ["markt"] tksFix := by
    unfold process_text format_results
    exact List.mem_mergeSort.mpr (by decide)
  exact ⟨hg,
    (C9_lemma_invariant tksFix ["markt"] ⟨"handelaar", ["handelaars", "handelaar"], 2⟩ hg).2.1,
    (C9_lemma_invariant tksFix ["markt"] ⟨"handelaar", ["handelaars", "handelaar"], 2⟩ hg).2.2.2⟩

end DutchVocab
